import Mathlib

/-
Verification of the calc_hdx HDX prediction core (src/Methods.py, src/Analysis.py).

Modelling conventions:
* Floating point numbers are modelled as rationals; the transcendental numpy
  functions np.exp and np.sqrt are abstracted as explicit function arguments
  (named expf and sqrtf), since the properties under verification concern the
  arguments those functions receive and the arithmetic around them.
* Numpy arrays are lists; elementwise array operations are List.zipWith or
  List.map; np.concatenate along the frame axis is row-wise append.
* Python exceptions (Functions.HDX_Error) are modelled with Except; a method
  whose body cannot raise is a total function into Except with only ok results.
* The right-hand operand of the Python addition operators is modelled by the
  Operand type, whose wrongType constructor stands for any value failing the
  isinstance check.
* DfPred.DfPredictor (the shared base class, in particular its dfrac method
  and the intrinsic rates) is not part of the two source files; its fraction
  computation is modelled from the spec where noted.
-/

/-- Errors raised through Functions.HDX_Error by the embedded methods. -/
inductive HdxError
  | ratesMismatch
  | badExpfileShort
  | badExpfileLong
  | segresMismatch
deriving DecidableEq

/-- Right-hand operand of a Python binary addition: an object of the expected
class, or a value of any other type, which fails the isinstance check. -/
inductive Operand (α : Type)
  | obj (a : α)
  | wrongType

/-- Modelled from the spec: DfPred.DfPredictor.dfrac is not in src.
Section 4.2 of the spec defines the exchange kinetics model as
fraction(PF, k, t) = 1 - exp(-(k/PF)*t), applied per residue per timepoint. -/
def fraction (expf : ℚ → ℚ) (pf k t : ℚ) : ℚ :=
  1 - expf (-(k / pf) * t)

/-- Modelled from the spec: the per-residue, per-timepoint deuterated fraction
table that DfPredictor.dfrac computes from the mean PF column, the intrinsic
rates and the configured timepoints. -/
def dfrac (expf : ℚ → ℚ) (rates pfs times : List ℚ) : List (List ℚ) :=
  List.zipWith (fun pf k => times.map (fun t => fraction expf pf k t)) pfs rates

/-- Numeric state of a Methods.Radou object after a prediction run: intrinsic
rates, configured timepoints, frame count, the two columns of Radou.pfs
(per-residue mean PF and standard deviation), the by-frame PFs and the
by-residue deuterated fractions. -/
structure RadouState where
  rates : List ℚ
  times : List ℚ
  nFrames : ℕ
  pfs : List (ℚ × ℚ)
  pfByframe : List (List ℚ)
  resfracs : List (List ℚ)

/-- Shallow embedding of Methods.Radou.__add__ (Methods.py lines 42-62).
Mirrors the statement order of the source: the new PF column is formed from
the old frame counts, the new SD column from the old frame counts and old SD
columns, the frame count is then updated, and both columns are divided by the
updated frame count; by-frame PFs are concatenated along the frame axis and
the fractions are recomputed with dfrac. A rates mismatch raises HDX_Error;
an operand of another type is returned unchanged. -/
def Radou.add (sqrtf expf : ℚ → ℚ) (s : RadouState) (o : Operand RadouState) :
    Except HdxError RadouState :=
  match o with
  | .wrongType => .ok s
  | .obj other =>
    if s.rates = other.rates then
      let col0 := List.zipWith
        (fun p q => (s.nFrames : ℚ) * p.1 + (other.nFrames : ℚ) * q.1) s.pfs other.pfs
      let col1 := List.zipWith
        (fun p q => sqrtf ((s.nFrames : ℚ) ^ 2 * p.2 ^ 2 + (other.nFrames : ℚ) ^ 2 * q.2 ^ 2))
        s.pfs other.pfs
      let n := s.nFrames + other.nFrames
      let pfs := List.zipWith (fun a b => (a / (n : ℚ), b / (n : ℚ))) col0 col1
      .ok { rates := s.rates, times := s.times, nFrames := n, pfs := pfs,
            pfByframe := List.zipWith (· ++ ·) s.pfByframe other.pfByframe,
            resfracs := dfrac expf s.rates (pfs.map Prod.fst) s.times }
    else
      .error .ratesMismatch

/-- Two zipWith passes over the same pair of lists fuse into one. -/
theorem zipWith_zipWith_same {α β γ δ ε : Type} (h : γ → δ → ε) (f : α → β → γ)
    (g : α → β → δ) :
    ∀ (l1 : List α) (l2 : List β),
      List.zipWith h (List.zipWith f l1 l2) (List.zipWith g l1 l2) =
        List.zipWith (fun a b => h (f a b) (g a b)) l1 l2 := by
  intro l1
  induction l1 with
  | nil => intro l2; rfl
  | cons a t ih =>
    intro l2
    cases l2 with
    | nil => rfl
    | cons b t2 => simp [ih]

/-- Scenario chunk: 10 frames with a single-residue PF of 100. -/
def radouChunkA : RadouState :=
  { rates := [1], times := [1], nFrames := 10, pfs := [(100, 0)],
    pfByframe := [List.replicate 10 100], resfracs := dfrac id [1] [100] [1] }

/-- Scenario chunk: 10 frames with a single-residue PF of 300. -/
def radouChunkB : RadouState :=
  { rates := [1], times := [1], nFrames := 10, pfs := [(300, 0)],
    pfByframe := [List.replicate 10 300], resfracs := dfrac id [1] [300] [1] }

/-- C1: merging a cumulative state holding F frames with per-residue PF_cum and
SD_cum with a chunk of f_new frames (same rate vector) produces per-residue
PF (F*PF_cum + f_new*PF_new)/(F + f_new), per-residue SD
sqrt(F^2*SD_cum^2 + f_new^2*SD_new^2)/(F + f_new), and frame count F + f_new;
in particular two chunks of 10 frames each with PFs 100 and 300 merge to a
cumulative PF of 200. -/
theorem radou_add_frame_weighted_merge (sqrtf expf : ℚ → ℚ) (s other : RadouState)
    (h : s.rates = other.rates) :
    (∃ m : RadouState,
        Radou.add sqrtf expf s (.obj other) = .ok m ∧
        m.nFrames = s.nFrames + other.nFrames ∧
        m.pfs = List.zipWith
          (fun p q =>
            (((s.nFrames : ℚ) * p.1 + (other.nFrames : ℚ) * q.1) /
              ((s.nFrames : ℚ) + (other.nFrames : ℚ)),
             sqrtf ((s.nFrames : ℚ) ^ 2 * p.2 ^ 2 + (other.nFrames : ℚ) ^ 2 * q.2 ^ 2) /
              ((s.nFrames : ℚ) + (other.nFrames : ℚ))))
          s.pfs other.pfs) ∧
    (Radou.add id id radouChunkA (.obj radouChunkB)).map
        (fun m => (m.pfs.map Prod.fst, m.nFrames)) = .ok ([200], 20) := by
  constructor
  · simp only [Radou.add, if_pos h]
    refine ⟨_, rfl, rfl, ?_⟩
    simp only [zipWith_zipWith_same]
    push_cast
    rfl
  · simp [Radou.add, radouChunkA, radouChunkB, Except.map]
    norm_num

/-- Witness for C1 at the two concrete 10-frame chunks with PFs 100 and 300. -/
theorem radou_add_frame_weighted_merge_witness :
    radouChunkA.rates = radouChunkB.rates ∧
    (Radou.add id id radouChunkA (.obj radouChunkB)).map
        (fun m => (m.pfs.map Prod.fst, m.nFrames)) = .ok ([200], 20) := by
  refine ⟨rfl, ?_⟩
  exact (radou_add_frame_weighted_merge id id radouChunkA radouChunkB rfl).2

/-- np.cumsum for a 1D natural number array. -/
def npCumsum (l : List ℕ) : List ℕ := (l.scanl (· + ·) 0).tail

/-- np.cumsum along axis 0 of a 2D array: elementwise prefix sums over rows. -/
def npCumsumRows : List (List ℚ) → List (List ℚ)
  | [] => []
  | r :: rs => r :: (npCumsumRows rs).map (List.zipWith (· + ·) r)

/-- Numeric state of an Analysis.Analyze object: residue index list, intrinsic
rates, timepoints, per-chunk and cumulative fraction blocks (indexed chunk,
residue, time), per-chunk and cumulative PF rows, per-chunk and cumulative
frame counts. -/
structure AnalyzeState where
  reslist : List ℕ
  rates : List ℚ
  times : List ℚ
  resfracs : List (List (List ℚ))
  cResfracs : List (List (List ℚ))
  pfs : List (List ℚ)
  cPfs : List (List ℚ)
  nFrames : List ℕ
  cNFrames : List ℕ

/-- The inline helper _residue_fraction defined inside Analyze.__add__
(Analysis.py lines 77-78): 1 - np.exp(-k / pf * time). -/
def residueFraction (expf : ℚ → ℚ) (pf k time : ℚ) : ℚ :=
  1 - expf (-k / pf * time)

/-- The cumulative fraction block recomputed by Analyze.__add__ (Analysis.py
lines 71-83) from the latest cumulative PF row: entry [i1][i2] is the fraction
for residue i1 at timepoint i2. -/
def cumulFracBlock (expf : ℚ → ℚ) (rates times pfsLast : List ℚ) : List (List ℚ) :=
  List.zipWith (fun pf k => times.map (fun t => residueFraction expf pf k t)) pfsLast rates

/-- Shallow embedding of Analysis.Analyze.__add__ (Analysis.py lines 46-90).
The source has no reachable raise statement in this method, so every branch
returns ok: a wrong-typed operand and a reslist or rates mismatch both return
self (the mismatch also prints a message, not modelled); a matching operand
appends frame counts and PF rows, recomputes the weighted running PF average
and appends one cumulative fraction block recomputed from the latest
cumulative PF row. -/
def Analyze.add (expf : ℚ → ℚ) (s : AnalyzeState) (o : Operand AnalyzeState) :
    Except HdxError AnalyzeState :=
  match o with
  | .wrongType => .ok s
  | .obj other =>
    if s.reslist = other.reslist ∧ s.rates = other.rates then
      let nFrames := s.nFrames ++ other.nFrames
      let cNFrames := npCumsum nFrames
      let pfs := s.pfs ++ other.pfs
      let weighted := List.zipWith (fun f row => row.map (fun x => x * (f : ℚ))) nFrames pfs
      let cPfs := List.zipWith (fun tf row => row.map (fun x => x / (tf : ℚ)))
        cNFrames (npCumsumRows weighted)
      .ok { reslist := s.reslist, rates := s.rates, times := s.times,
            resfracs := s.resfracs ++ other.resfracs,
            cResfracs := s.cResfracs ++
              [cumulFracBlock expf s.rates s.times (cPfs.getLastD [])],
            pfs := pfs, cPfs := cPfs, nFrames := nFrames, cNFrames := cNFrames }
    else
      .ok s

/-- Shallow embedding of Analysis.Analyze.__init__ from a method object
holding by-residue results: a fraction block resfracs0, a mean PF row pfs0 and
a frame count nf, each becoming a one-element chunk history. -/
def Analyze.init (reslist : List ℕ) (rates times : List ℚ)
    (resfracs0 : List (List ℚ)) (pfs0 : List ℚ) (nf : ℕ) : AnalyzeState :=
  { reslist := reslist, rates := rates, times := times,
    resfracs := [resfracs0], cResfracs := [resfracs0],
    pfs := [pfs0], cPfs := [pfs0],
    nFrames := [nf], cNFrames := [nf] }

/-- A production run of the aggregation driver: the initial Analyze object
merged in order with a sequence of further operands. -/
def Analyze.addSeq (expf : ℚ → ℚ) (s : AnalyzeState)
    (ops : List (Operand AnalyzeState)) : Except HdxError AnalyzeState :=
  ops.foldlM (Analyze.add expf) s

/-- The inline helper of Analyze.__add__ computes the same value as the
spec exchange kinetics model. -/
theorem residueFraction_eq_fraction (expf : ℚ → ℚ) (pf k t : ℚ) :
    residueFraction expf pf k t = fraction expf pf k t := by
  simp [residueFraction, fraction, neg_div]

/-- The recomputed cumulative block of Analyze.__add__ is the dfrac table of
the latest cumulative PF row. -/
theorem cumulFracBlock_eq_dfrac (expf : ℚ → ℚ) (rates times pfsLast : List ℚ) :
    cumulFracBlock expf rates times pfsLast = dfrac expf rates pfsLast times := by
  simp [cumulFracBlock, dfrac, residueFraction_eq_fraction]

/-- Appending one element moves getLastD to that element. -/
theorem getLastD_append_singleton {α : Type} (l : List α) (a d : α) :
    (l ++ [a]).getLastD d = a := by
  simp [List.getLastD_eq_getLast?]

/-- Analyze.__add__ cannot raise: every branch returns ok. -/
theorem analyze_add_ok (expf : ℚ → ℚ) (s : AnalyzeState) (o : Operand AnalyzeState) :
    ∃ t, Analyze.add expf s o = .ok t := by
  cases o with
  | wrongType => exact ⟨s, rfl⟩
  | obj other =>
    simp only [Analyze.add]
    split
    · exact ⟨_, rfl⟩
    · exact ⟨s, rfl⟩

/-- One merge step preserves the recomputation law relating the latest
cumulative fraction block to the latest cumulative PF row. -/
theorem analyze_add_preserves_law (expf : ℚ → ℚ) (s t : AnalyzeState)
    (o : Operand AnalyzeState)
    (hs : s.cResfracs.getLastD [] = dfrac expf s.rates (s.cPfs.getLastD []) s.times)
    (h : Analyze.add expf s o = .ok t) :
    t.cResfracs.getLastD [] = dfrac expf t.rates (t.cPfs.getLastD []) t.times := by
  cases o with
  | wrongType =>
    simp only [Analyze.add] at h
    injection h with h
    subst h
    exact hs
  | obj other =>
    by_cases hc : s.reslist = other.reslist ∧ s.rates = other.rates
    · simp only [Analyze.add, if_pos hc] at h
      injection h with h
      subst h
      dsimp only
      rw [getLastD_append_singleton]
      exact cumulFracBlock_eq_dfrac expf s.rates s.times _
    · simp only [Analyze.add, if_neg hc] at h
      injection h with h
      subst h
      exact hs

/-- Any sequence of merge operands preserves the recomputation law. -/
theorem analyze_addSeq_preserves_law (expf : ℚ → ℚ)
    (ops : List (Operand AnalyzeState)) :
    ∀ s S : AnalyzeState,
      s.cResfracs.getLastD [] = dfrac expf s.rates (s.cPfs.getLastD []) s.times →
      Analyze.addSeq expf s ops = .ok S →
      S.cResfracs.getLastD [] = dfrac expf S.rates (S.cPfs.getLastD []) S.times := by
  induction ops with
  | nil =>
    intro s S hs h
    simp only [Analyze.addSeq, List.foldlM] at h
    injection h with h
    subst h
    exact hs
  | cons o rest ih =>
    intro s S hs h
    obtain ⟨t, ht⟩ := analyze_add_ok expf s o
    simp only [Analyze.addSeq, List.foldlM, ht, bind, Except.bind] at h
    exact ih t S (analyze_add_preserves_law expf s t o hs ht)
      (by simpa only [Analyze.addSeq, List.foldlM] using h)

/-- C2: after any sequence of merges starting from an Analyze object whose
initial fraction block was produced by dfrac, the latest cumulative fraction
block equals the exchange kinetics model 1 - exp(-(k/PF)*t) applied to the
latest cumulative PF row, residue by residue and timepoint by timepoint; it
is recomputed fresh at each merge, never combined from per-chunk fractions. -/
theorem analyze_cumulative_fraction_recomputed (expf : ℚ → ℚ)
    (reslist : List ℕ) (rates times pfs0 : List ℚ) (resfracs0 : List (List ℚ))
    (nf : ℕ) (ops : List (Operand AnalyzeState)) (S : AnalyzeState)
    (hinit : resfracs0 = dfrac expf rates pfs0 times)
    (h : Analyze.addSeq expf (Analyze.init reslist rates times resfracs0 pfs0 nf) ops
        = .ok S) :
    S.cResfracs.getLastD [] = dfrac expf S.rates (S.cPfs.getLastD []) S.times := by
  refine analyze_addSeq_preserves_law expf ops _ S ?_ h
  simpa [Analyze.init] using hinit

/-- Merged state of the C2 witness run: two identical 10-frame single-residue
chunks with PF 4, intrinsic rate 1 and a single timepoint 2. -/
def analyzeMergedW : AnalyzeState :=
  { reslist := [0], rates := [1], times := [2],
    resfracs := [[[3/2]], [[3/2]]], cResfracs := [[[3/2]], [[3/2]]],
    pfs := [[4], [4]], cPfs := [[4], [4]],
    nFrames := [10, 10], cNFrames := [10, 20] }

/-- Witness for C2: one concrete merge of two identical single-residue chunks,
with the recomputation law evaluated on the merged state. -/
theorem analyze_cumulative_fraction_recomputed_witness :
    ([[(3:ℚ)/2]] = dfrac id [1] [4] [2]) ∧
    (Analyze.addSeq id (Analyze.init [0] [1] [2] [[3/2]] [4] 10)
        [Operand.obj (Analyze.init [0] [1] [2] [[3/2]] [4] 10)] = .ok analyzeMergedW) ∧
    analyzeMergedW.cResfracs.getLastD [] =
      dfrac id analyzeMergedW.rates (analyzeMergedW.cPfs.getLastD [])
        analyzeMergedW.times := by
  have h1 : ([[(3:ℚ)/2]] = dfrac id [1] [4] [2]) := by
    norm_num [dfrac, fraction]
  have h2 : Analyze.addSeq id (Analyze.init [0] [1] [2] [[3/2]] [4] 10)
      [Operand.obj (Analyze.init [0] [1] [2] [[3/2]] [4] 10)] = .ok analyzeMergedW := by
    simp only [Analyze.addSeq, List.foldlM, Analyze.add, Analyze.init, bind,
      Except.bind, pure, Except.pure, analyzeMergedW, npCumsum, npCumsumRows,
      cumulFracBlock, residueFraction, List.scanl, List.getLastD]
    norm_num
  exact ⟨h1, h2, analyze_cumulative_fraction_recomputed id [0] [1] [2] [4] [[3/2]]
    10 [Operand.obj (Analyze.init [0] [1] [2] [[3/2]] [4] 10)] analyzeMergedW h1 h2⟩

/-- A numpy double as it appears in the PH protection factors: a finite
value, positive infinity, or nan. -/
inductive NpFloat
  | val (q : ℚ)
  | inf
  | nan
deriving DecidableEq

/-- Open-frame count of one residue row: np.sum(watcontacts > 1, axis=1)
in Methods.py line 365. -/
def openCount (row : List ℕ) : ℕ :=
  (row.filter (fun c => decide (1 < c))).length

/-- Closed-frame count of one residue row: np.sum(watcontacts <= 1, axis=1)
in Methods.py line 365. -/
def closedCount (row : List ℕ) : ℕ :=
  (row.filter (fun c => decide (c ≤ 1))).length

/-- Numpy float division of two counts with the divide-by-zero warning
suppressed (np.errstate in Methods.py line 366): a finite ratio, +inf for a
positive count over zero, nan for 0/0. -/
def npDiv (a b : ℕ) : NpFloat :=
  if b = 0 then (if a = 0 then .nan else .inf) else .val ((a : ℚ) / (b : ℚ))

/-- The per-residue PF computation of Methods.PH.PF (lines 364-371):
closed/open ratio of the accumulated totals paired with a standard deviation
that is always zero (np.zeros in line 371). -/
def PH.calcPF (wat : List (List ℕ)) : List (NpFloat × ℚ) :=
  wat.map (fun row => (npDiv (closedCount row) (openCount row), (0 : ℚ)))

/-- Numeric state of a Methods.PH object after a prediction run. -/
structure PHState where
  rates : List ℚ
  times : List ℚ
  nFrames : ℕ
  watcontacts : List (List ℕ)
  pfByframe : List (List NpFloat)
  pfs : List (NpFloat × ℚ)
  resfracs : List (List NpFloat)

/-- Modelled from the spec: the exchange kinetics model of section 4.2 applied
to a PH protection factor that may be infinite or nan. PF = +inf makes k/PF
zero, PF = 0 divides by zero and propagates as non-finite, nan flows through
unchanged; non-finite intermediates never raise. -/
def phFraction (expf : ℚ → ℚ) (pf : NpFloat) (k t : ℚ) : NpFloat :=
  match pf with
  | .nan => .nan
  | .inf => .val (1 - expf 0)
  | .val x => if x = 0 then .nan else .val (1 - expf (-(k / x) * t))

/-- Modelled from the spec: DfPredictor.dfrac for the PH variant, the fraction
table from the PF column, intrinsic rates and timepoints. -/
def phDfrac (expf : ℚ → ℚ) (rates : List ℚ) (pfs : List NpFloat) (times : List ℚ) :
    List (List NpFloat) :=
  List.zipWith (fun pf k => times.map (fun t => phFraction expf pf k t)) pfs rates

/-- Shallow embedding of Methods.PH.__add__ (Methods.py lines 308-324): with
matching rates the water contacts and by-frame PFs are concatenated along the
frame axis, the PF column is recomputed from the concatenated totals by
PF(update_only=True) and the fractions recomputed by dfrac; a rates mismatch
raises HDX_Error; a wrong-typed operand is returned unchanged. -/
def PH.add (expf : ℚ → ℚ) (s : PHState) (o : Operand PHState) :
    Except HdxError PHState :=
  match o with
  | .wrongType => .ok s
  | .obj other =>
    if s.rates = other.rates then
      let wat := List.zipWith (· ++ ·) s.watcontacts other.watcontacts
      let pfs := PH.calcPF wat
      .ok { rates := s.rates, times := s.times,
            nFrames := s.nFrames + other.nFrames,
            watcontacts := wat,
            pfByframe := List.zipWith (· ++ ·) s.pfByframe other.pfByframe,
            pfs := pfs,
            resfracs := phDfrac expf s.rates (pfs.map Prod.fst) s.times }
    else
      .error .ratesMismatch

/-- Every frame is counted exactly once: the closed predicate (count <= 1) is
the complement of the open predicate (count > 1). -/
theorem closedCount_add_openCount (row : List ℕ) :
    closedCount row + openCount row = row.length := by
  induction row with
  | nil => rfl
  | cons c t ih =>
    by_cases h : c ≤ 1
    · have h2 : ¬ (1 < c) := not_lt.mpr h
      simp only [closedCount, openCount, List.filter_cons] at ih ⊢
      simp [h, h2, Nat.succ_add] at ih ⊢
      omega
    · have h2 : 1 < c := not_le.mp h
      simp only [closedCount, openCount, List.filter_cons] at ih ⊢
      simp [h, h2] at ih ⊢
      omega

/-- Closed counts add over concatenated frame rows. -/
theorem closedCount_append (r1 r2 : List ℕ) :
    closedCount (r1 ++ r2) = closedCount r1 + closedCount r2 := by
  simp [closedCount, List.filter_append]

/-- Open counts add over concatenated frame rows. -/
theorem openCount_append (r1 r2 : List ℕ) :
    openCount (r1 ++ r2) = openCount r1 + openCount r2 := by
  simp [openCount, List.filter_append]

/-- C4: in the PH model a frame is open exactly when its water-contact count
exceeds 1 and closed otherwise (the two counts partition the frames); the PF
is the ratio of closed to open totals, over the concatenated totals after a
merge; a zero open count with at least one frame gives +inf without raising;
the SD is always 0; and the row [0,0,2] gives 2 closed, 1 open, PF 2, SD 0. -/
theorem ph_pf_ratio_of_totals (expf : ℚ → ℚ) (s other : PHState) (row : List ℕ)
    (hr : s.rates = other.rates) (hrow : 0 < row.length)
    (hopen : openCount row = 0) :
    (closedCount row + openCount row = row.length) ∧
    (npDiv (closedCount row) (openCount row) = .inf) ∧
    ((PH.add expf s (.obj other)).map (fun m => m.pfs) = .ok (List.zipWith
        (fun r1 r2 =>
          (npDiv (closedCount r1 + closedCount r2) (openCount r1 + openCount r2),
           (0 : ℚ)))
        s.watcontacts other.watcontacts)) ∧
    (∀ wat : List (List ℕ), ∀ p ∈ PH.calcPF wat, p.2 = 0) ∧
    PH.calcPF [[0, 0, 2]] = [(.val 2, 0)] := by
  refine ⟨closedCount_add_openCount row, ?_, ?_, ?_, ?_⟩
  · have hc : closedCount row ≠ 0 := by
      have := closedCount_add_openCount row
      omega
    simp [npDiv, hopen, hc]
  · simp only [PH.add, if_pos hr, Except.map]
    congr 1
    simp only [PH.calcPF, List.map_zipWith]
    congr 1
    funext r1 r2
    rw [closedCount_append, openCount_append]
  · intro wat p hp
    simp only [PH.calcPF, List.mem_map] at hp
    obtain ⟨r0, _, rfl⟩ := hp
    rfl
  · norm_num [PH.calcPF, closedCount, openCount, npDiv, List.filter]

/-- Scenario chunk for the PH witness: three frames of contacts [0,0,2]. -/
def phChunkA : PHState :=
  { rates := [1], times := [1], nFrames := 3, watcontacts := [[0, 0, 2]],
    pfByframe := [[.val 2, .val 2, .val 2]],
    pfs := PH.calcPF [[0, 0, 2]],
    resfracs := phDfrac id [1] [.val 2] [1] }

/-- Second chunk for the PH witness: one extra closed frame. -/
def phChunkB : PHState :=
  { rates := [1], times := [1], nFrames := 1, watcontacts := [[0]],
    pfByframe := [[.val 3]],
    pfs := PH.calcPF [[0]],
    resfracs := phDfrac id [1] [.inf] [1] }

/-- Witness for C4 at the concrete contact row [0,0,0] and a concrete merge
of the [0,0,2] chunk with a one-frame chunk. -/
theorem ph_pf_ratio_of_totals_witness :
    (phChunkA.rates = phChunkB.rates ∧ 0 < ([0, 0, 0] : List ℕ).length ∧
      openCount [0, 0, 0] = 0) ∧
    ((closedCount [0, 0, 0] + openCount [0, 0, 0] = ([0, 0, 0] : List ℕ).length) ∧
      (npDiv (closedCount [0, 0, 0]) (openCount [0, 0, 0]) = .inf) ∧
      ((PH.add id phChunkA (.obj phChunkB)).map (fun m => m.pfs) = .ok (List.zipWith
          (fun r1 r2 =>
            (npDiv (closedCount r1 + closedCount r2) (openCount r1 + openCount r2),
             (0 : ℚ)))
          phChunkA.watcontacts phChunkB.watcontacts)) ∧
      (∀ wat : List (List ℕ), ∀ p ∈ PH.calcPF wat, p.2 = 0) ∧
      PH.calcPF [[0, 0, 2]] = [(.val 2, 0)]) := by
  refine ⟨⟨rfl, by decide, by decide⟩, ?_⟩
  exact ph_pf_ratio_of_totals id phChunkA phChunkB [0, 0, 0] rfl (by decide) (by decide)

/-- Concrete Analyze state with rate vector [1]. -/
def analyzeRatesA : AnalyzeState :=
  { reslist := [0], rates := [1], times := [1],
    resfracs := [[[0]]], cResfracs := [[[0]]],
    pfs := [[2]], cPfs := [[2]], nFrames := [5], cNFrames := [5] }

/-- Concrete Analyze state with rate vector [2], otherwise identical. -/
def analyzeRatesB : AnalyzeState :=
  { analyzeRatesA with rates := [2] }

/-- C3 counterexample: Analyze.__add__ applied to two Analyze objects whose
rate vectors differ raises no error at all; it returns the left operand
unchanged as an ordinary result (Analysis.py lines 54-56 print a message and
return self), contradicting the claim that every merge operation raises a
hard ConfigurationError on mismatched operands. -/
theorem analyze_add_mismatch_no_error :
    Analyze.add id analyzeRatesA (.obj analyzeRatesB) = .ok analyzeRatesA ∧
    analyzeRatesA.rates ≠ analyzeRatesB.rates := by
  constructor
  · have hc : ¬(analyzeRatesA.reslist = analyzeRatesB.reslist ∧
        analyzeRatesA.rates = analyzeRatesB.rates) := by
      norm_num [analyzeRatesA, analyzeRatesB]
    simp only [Analyze.add, if_neg hc]
  · norm_num [analyzeRatesA, analyzeRatesB]

/-- C3 amended: Radou.__add__ and PH.__add__ raise a hard error (HDX_Error)
when the operands have differing intrinsic-rate vectors, checking the rates
before any state change so that both operands are unmodified and never
truncated or padded; Analyze.__add__ instead handles a residue-list or rate
mismatch by returning the left operand unchanged without raising. -/
theorem merge_mismatch_handling (sqrtf expf expf2 expf3 : ℚ → ℚ)
    (r rOther : RadouState) (p pOther : PHState) (a aOther : AnalyzeState)
    (hr : r.rates ≠ rOther.rates) (hp : p.rates ≠ pOther.rates)
    (ha : a.reslist ≠ aOther.reslist ∨ a.rates ≠ aOther.rates) :
    Radou.add sqrtf expf r (.obj rOther) = .error .ratesMismatch ∧
    PH.add expf2 p (.obj pOther) = .error .ratesMismatch ∧
    Analyze.add expf3 a (.obj aOther) = .ok a := by
  refine ⟨?_, ?_, ?_⟩
  · simp only [Radou.add, if_neg hr]
  · simp only [PH.add, if_neg hp]
  · have hc : ¬(a.reslist = aOther.reslist ∧ a.rates = aOther.rates) := by tauto
    simp only [Analyze.add, if_neg hc]

/-- Radou state with rate vector [2], otherwise the 10-frame scenario chunk. -/
def radouRates2 : RadouState :=
  { radouChunkA with rates := [2] }

/-- PH state with rate vector [2], otherwise the [0,0,2] scenario chunk. -/
def phRates2 : PHState :=
  { phChunkA with rates := [2] }

/-- Witness for the amended C3 at concrete mismatched states of all three
classes. -/
theorem merge_mismatch_handling_witness :
    (radouChunkA.rates ≠ radouRates2.rates ∧ phChunkA.rates ≠ phRates2.rates ∧
      (analyzeRatesA.reslist ≠ analyzeRatesB.reslist ∨
        analyzeRatesA.rates ≠ analyzeRatesB.rates)) ∧
    (Radou.add id id radouChunkA (.obj radouRates2) = .error .ratesMismatch ∧
      PH.add id phChunkA (.obj phRates2) = .error .ratesMismatch ∧
      Analyze.add id analyzeRatesA (.obj analyzeRatesB) = .ok analyzeRatesA) := by
  have h1 : radouChunkA.rates ≠ radouRates2.rates := by
    norm_num [radouChunkA, radouRates2]
  have h2 : phChunkA.rates ≠ phRates2.rates := by
    norm_num [phChunkA, phRates2]
  have h3 : analyzeRatesA.rates ≠ analyzeRatesB.rates := by
    norm_num [analyzeRatesA, analyzeRatesB]
  exact ⟨⟨h1, h2, Or.inr h3⟩,
    merge_mismatch_handling id id id id radouChunkA radouRates2 phChunkA phRates2
      analyzeRatesA analyzeRatesB h1 h2 (Or.inr h3)⟩

/-- C10: for each of the three classes, adding an operand that is not an
instance of the same class returns the left object itself unchanged as an
ordinary result and raises no error. -/
theorem add_wrong_type_returns_self (sqrtf expf expf2 expf3 : ℚ → ℚ)
    (r : RadouState) (p : PHState) (a : AnalyzeState) :
    Radou.add sqrtf expf r .wrongType = .ok r ∧
    PH.add expf2 p .wrongType = .ok p ∧
    Analyze.add expf3 a .wrongType = .ok a :=
  ⟨rfl, rfl, rfl⟩

/-- Log events recorded during segment averaging: Analyze.segments appends a
substitution line to the logfile when a boundary residue ID is not found. -/
inductive SegLogEvent
  | missingStart (rid : ℤ)
  | missingEnd (rid : ℤ)
deriving DecidableEq

/-- Start-boundary resolution of Analyze.segments (Analysis.py lines 186-193):
the residue-ID to index lookup on success, otherwise index 0 (the index of the
first topology residue, top.residue(0)) together with a logged substitution. -/
def segResolveStart (res2idx : ℤ → Option ℕ) (sid : ℤ) : ℕ × List SegLogEvent :=
  match res2idx sid with
  | some i => (i, [])
  | none => (0, [.missingStart sid])

/-- End-boundary resolution of Analyze.segments (Analysis.py lines 194-200):
the residue-ID to index lookup on success, otherwise the index of the last
topology residue, top.residue(-1).index, with a logged substitution. -/
def segResolveEnd (res2idx : ℤ → Option ℕ) (lastIdx : ℕ) (eid : ℤ) :
    ℕ × List SegLogEvent :=
  match res2idx eid with
  | some i => (i, [])
  | none => (lastIdx, [.missingEnd eid])

/-- Residue selection of Analyze.segments (Analysis.py lines 202-205): the
fractions of the residues whose index lies in (start, stop] when skip_first
is set, in [start, stop] otherwise, mirroring the two np.where branches. -/
def segSelect (skipFirst : Bool) (reslist : List ℕ) (fracs : List ℚ)
    (start stop : ℕ) : List ℚ :=
  ((reslist.zip fracs).filter (fun p =>
      if skipFirst then decide (start < p.1 ∧ p.1 ≤ stop)
      else decide (start ≤ p.1 ∧ p.1 ≤ stop))).map Prod.snd

/-- np.mean of a list of values. -/
def npMean (l : List ℚ) : ℚ := l.sum / l.length

/-- One segment average of Analyze.segments for one fraction row and one
timepoint: boundary resolution with substitution logging, residue selection
and arithmetic mean; the source wraps the lookups in try/except KeyError, so
the computation is total and never raises. -/
def segAverage (skipFirst : Bool) (res2idx : ℤ → Option ℕ) (lastIdx : ℕ)
    (reslist : List ℕ) (fracs : List ℚ) (seg : ℤ × ℤ) : ℚ × List SegLogEvent :=
  let rs := segResolveStart res2idx seg.1
  let re := segResolveEnd res2idx lastIdx seg.2
  (npMean (segSelect skipFirst reslist fracs rs.1 re.1), rs.2 ++ re.2)

/-- Scenario lookup mapping residue IDs 0 to 25 to themselves as indices. -/
def segScenarioLookup (r : ℤ) : Option ℕ :=
  if 0 ≤ r ∧ r ≤ 25 then some r.toNat else none

/-- C5: with both boundary IDs present, the segment average is the arithmetic
mean of the per-residue fractions over exactly the residues with index in
(start, stop] under the skip-first policy and in [start, stop] otherwise; for
segment (10,20) with skip_first set, residue 10 is excluded and residue 20
included, giving the mean of the fractions of residues 15 and 20 in the
scenario list. -/
theorem segment_average_interval (res2idx : ℤ → Option ℕ) (lastIdx : ℕ)
    (reslist : List ℕ) (fracs : List ℚ) (sid eid : ℤ) (st en : ℕ)
    (hs : res2idx sid = some st) (he : res2idx eid = some en) :
    ((segAverage true res2idx lastIdx reslist fracs (sid, eid)).1 =
      npMean (((reslist.zip fracs).filter
        (fun p => decide (st < p.1 ∧ p.1 ≤ en))).map Prod.snd)) ∧
    ((segAverage false res2idx lastIdx reslist fracs (sid, eid)).1 =
      npMean (((reslist.zip fracs).filter
        (fun p => decide (st ≤ p.1 ∧ p.1 ≤ en))).map Prod.snd)) ∧
    (∀ p : ℕ × ℚ,
      p ∈ (reslist.zip fracs).filter (fun p => decide (st < p.1 ∧ p.1 ≤ en)) ↔
        (p ∈ reslist.zip fracs ∧ st < p.1 ∧ p.1 ≤ en)) ∧
    (segAverage true segScenarioLookup 25 [8, 10, 15, 20, 22] [1, 2, 3, 4, 5]
        (10, 20)).1 = 7/2 := by
  refine ⟨?_, ?_, ?_, ?_⟩
  · simp [segAverage, segResolveStart, segResolveEnd, hs, he, segSelect]
  · simp [segAverage, segResolveStart, segResolveEnd, hs, he, segSelect]
  · intro p
    simp [List.mem_filter]
  · simp [segAverage, segResolveStart, segResolveEnd, segScenarioLookup,
      segSelect, npMean, List.zip]
    norm_num

/-- Witness for C5 at the scenario lookup, segment (10,20), residue indices
[8,10,15,20,22] with fractions [1,2,3,4,5]. -/
theorem segment_average_interval_witness :
    (segScenarioLookup 10 = some 10 ∧ segScenarioLookup 20 = some 20) ∧
    (((segAverage true segScenarioLookup 25 [8, 10, 15, 20, 22] [1, 2, 3, 4, 5]
        (10, 20)).1 =
      npMean ((([8, 10, 15, 20, 22].zip ([1, 2, 3, 4, 5] : List ℚ)).filter
        (fun p => decide (10 < p.1 ∧ p.1 ≤ 20))).map Prod.snd)) ∧
    ((segAverage false segScenarioLookup 25 [8, 10, 15, 20, 22] [1, 2, 3, 4, 5]
        (10, 20)).1 =
      npMean ((([8, 10, 15, 20, 22].zip ([1, 2, 3, 4, 5] : List ℚ)).filter
        (fun p => decide (10 ≤ p.1 ∧ p.1 ≤ 20))).map Prod.snd)) ∧
    (∀ p : ℕ × ℚ,
      p ∈ ([8, 10, 15, 20, 22].zip ([1, 2, 3, 4, 5] : List ℚ)).filter
          (fun p => decide (10 < p.1 ∧ p.1 ≤ 20)) ↔
        (p ∈ [8, 10, 15, 20, 22].zip ([1, 2, 3, 4, 5] : List ℚ) ∧
          10 < p.1 ∧ p.1 ≤ 20)) ∧
    (segAverage true segScenarioLookup 25 [8, 10, 15, 20, 22] [1, 2, 3, 4, 5]
        (10, 20)).1 = 7/2) := by
  refine ⟨⟨by decide, by decide⟩, ?_⟩
  exact segment_average_interval segScenarioLookup 25 [8, 10, 15, 20, 22]
    [1, 2, 3, 4, 5] 10 20 10 20 (by decide) (by decide)

/-- C7: when the start residue ID of a segment is absent from the lookup, the
computation substitutes index 0 (the first residue) as the start point, logs
the substitution, and returns an ordinary value without raising; the
analogous substitution uses the last residue when the end ID is absent. -/
theorem segment_missing_start_substitution (skipFirst : Bool)
    (res2idx : ℤ → Option ℕ) (lastIdx : ℕ) (reslist : List ℕ) (fracs : List ℚ)
    (sid eid : ℤ) (hs : res2idx sid = none) :
    segResolveStart res2idx sid = (0, [.missingStart sid]) ∧
    (res2idx eid = none →
      segResolveEnd res2idx lastIdx eid = (lastIdx, [.missingEnd eid])) ∧
    segAverage skipFirst res2idx lastIdx reslist fracs (sid, eid) =
      (npMean (segSelect skipFirst reslist fracs 0
          (segResolveEnd res2idx lastIdx eid).1),
        SegLogEvent.missingStart sid :: (segResolveEnd res2idx lastIdx eid).2) ∧
    (segAverage skipFirst res2idx lastIdx reslist fracs (sid, eid)).2 ≠ [] := by
  refine ⟨by simp [segResolveStart, hs], ?_, ?_, ?_⟩
  · intro he
    simp [segResolveEnd, he]
  · simp [segAverage, segResolveStart, hs]
  · simp [segAverage, segResolveStart, hs]

/-- Witness for C7 at the scenario lookup with the absent start ID -5. -/
theorem segment_missing_start_substitution_witness :
    (segScenarioLookup (-5) = none) ∧
    (segResolveStart segScenarioLookup (-5) = (0, [.missingStart (-5)]) ∧
    (segScenarioLookup 20 = none →
      segResolveEnd segScenarioLookup 25 20 = (25, [.missingEnd 20])) ∧
    segAverage true segScenarioLookup 25 [8, 10, 15, 20, 22] [1, 2, 3, 4, 5]
        (-5, 20) =
      (npMean (segSelect true [8, 10, 15, 20, 22] [1, 2, 3, 4, 5] 0
          (segResolveEnd segScenarioLookup 25 20).1),
        SegLogEvent.missingStart (-5) ::
          (segResolveEnd segScenarioLookup 25 20).2) ∧
    (segAverage true segScenarioLookup 25 [8, 10, 15, 20, 22] [1, 2, 3, 4, 5]
        (-5, 20)).2 ≠ []) := by
  refine ⟨by decide, ?_⟩
  exact segment_missing_start_substitution true segScenarioLookup 25
    [8, 10, 15, 20, 22] [1, 2, 3, 4, 5] (-5) 20 (by decide)

/-- np.loadtxt with a fixed-width structured dtype, as in the numpy version
this code targets: a row with fewer tokens than the dtype expects raises
ValueError (modelled as none), while extra trailing tokens beyond the dtype
width are silently dropped. -/
def npLoadtxt (ncols : ℕ) (rows : List (List ℚ)) : Option (List (List ℚ)) :=
  if rows.all (fun r => decide (ncols ≤ r.length)) then
    some (rows.map (fun r => r.take ncols))
  else
    none

/-- Shallow embedding of Analysis.Analyze.read_expfile (Analysis.py lines
103-128): load the file with 2 + n_times columns, a failure raising the
too-short HDX_Error; probe it again with one extra column and raise the
too-long HDX_Error if that succeeds; finally require the first two columns to
equal the predicted segment table exactly, storing the fraction columns only
then. -/
def read_expfile (times : List ℚ) (segres : List (ℤ × ℤ)) (rows : List (List ℚ)) :
    Except HdxError (List (List ℚ)) :=
  match npLoadtxt (2 + times.length) rows with
  | none => .error .badExpfileShort
  | some expt =>
    match npLoadtxt (2 + times.length + 1) rows with
    | some _ => .error .badExpfileLong
    | none =>
      if segres.map (fun p => ((p.1 : ℚ), (p.2 : ℚ))) =
          expt.map (fun r => (r.getD 0 0, r.getD 1 0)) then
        .ok (expt.map (fun r => r.drop 2))
      else
        .error .segresMismatch

/-- C8: for a nonempty experimental file of uniform width w, read_expfile
raises a hard error whenever w differs from 2 + n_times (too few or too many
columns) or the segment columns differ from the predicted segments; it
accepts exactly when both match, storing the fraction columns as they appear
in the file without any realignment. -/
theorem read_expfile_checks (times : List ℚ) (segres : List (ℤ × ℤ))
    (rows : List (List ℚ)) (w : ℕ)
    (hw : ∀ r ∈ rows, r.length = w) (hne : rows ≠ []) :
    (w ≠ 2 + times.length → ∃ e, read_expfile times segres rows = .error e) ∧
    (w = 2 + times.length →
      (segres.map (fun p => ((p.1 : ℚ), (p.2 : ℚ))) =
          rows.map (fun r => (r.getD 0 0, r.getD 1 0)) →
        read_expfile times segres rows = .ok (rows.map (fun r => r.drop 2))) ∧
      (segres.map (fun p => ((p.1 : ℚ), (p.2 : ℚ))) ≠
          rows.map (fun r => (r.getD 0 0, r.getD 1 0)) →
        read_expfile times segres rows = .error .segresMismatch)) := by
  obtain ⟨r0, hr0⟩ := List.exists_mem_of_ne_nil rows hne
  constructor
  · intro hne2
    rcases Nat.lt_or_ge w (2 + times.length) with hlt | hge
    · have h1 : npLoadtxt (2 + times.length) rows = none := by
        rw [npLoadtxt, if_neg]
        intro hall
        rw [List.all_eq_true] at hall
        have := hall r0 hr0
        rw [decide_eq_true_iff, hw r0 hr0] at this
        omega
      exact ⟨.badExpfileShort, by simp [read_expfile, h1]⟩
    · have hge2 : 2 + times.length + 1 ≤ w := by omega
      have h1 : npLoadtxt (2 + times.length) rows =
          some (rows.map (fun r => r.take (2 + times.length))) := by
        rw [npLoadtxt, if_pos]
        rw [List.all_eq_true]
        intro r hr
        rw [decide_eq_true_iff, hw r hr]
        omega
      have h2 : npLoadtxt (2 + times.length + 1) rows =
          some (rows.map (fun r => r.take (2 + times.length + 1))) := by
        rw [npLoadtxt, if_pos]
        rw [List.all_eq_true]
        intro r hr
        rw [decide_eq_true_iff, hw r hr]
        omega
      exact ⟨.badExpfileLong, by simp [read_expfile, h1, h2]⟩
  · intro hw2
    have h1 : npLoadtxt (2 + times.length) rows = some rows := by
      rw [npLoadtxt, if_pos]
      · have : rows.map (fun r => r.take (2 + times.length)) = rows.map id := by
          apply List.map_congr_left
          intro r hr
          exact List.take_of_length_le (le_of_eq (by rw [hw r hr, hw2]))
        rw [this, List.map_id]
      · rw [List.all_eq_true]
        intro r hr
        rw [decide_eq_true_iff, hw r hr, hw2]
    have h2 : npLoadtxt (2 + times.length + 1) rows = none := by
      rw [npLoadtxt, if_neg]
      intro hall
      rw [List.all_eq_true] at hall
      have := hall r0 hr0
      rw [decide_eq_true_iff, hw r0 hr0, hw2] at this
      omega
    constructor
    · intro hmatch
      simp only [read_expfile, h1, h2]
      rw [if_pos hmatch]
    · intro hmatch
      simp only [read_expfile, h1, h2]
      rw [if_neg hmatch]

/-- Witness for C8: a one-segment file with one timepoint, width 3 = 2 + 1,
matching segments (1,2), accepted with the fraction column 1/2. -/
theorem read_expfile_checks_witness :
    ((∀ r ∈ [[(1:ℚ), 2, 1/2]], r.length = 3) ∧ ([[(1:ℚ), 2, 1/2]] : List (List ℚ)) ≠ [] ∧
      (3 = 2 + ([(1:ℚ)] : List ℚ).length) ∧
      ([((1:ℤ), (2:ℤ))].map (fun p => ((p.1 : ℚ), (p.2 : ℚ))) =
        [[(1:ℚ), 2, 1/2]].map (fun r => (r.getD 0 0, r.getD 1 0)))) ∧
    read_expfile [(1:ℚ)] [((1:ℤ), (2:ℤ))] [[(1:ℚ), 2, 1/2]] =
      .ok [[(1:ℚ)/2]] := by
  have hw : ∀ r ∈ [[(1:ℚ), 2, 1/2]], r.length = 3 := by
    intro r hr
    simp at hr
    rw [hr]
    rfl
  have hmatch : [((1:ℤ), (2:ℤ))].map (fun p => ((p.1 : ℚ), (p.2 : ℚ))) =
      [[(1:ℚ), 2, 1/2]].map (fun r => (r.getD 0 0, r.getD 1 0)) := by
    norm_num
  have hmain := ((read_expfile_checks [(1:ℚ)] [((1:ℤ), (2:ℤ))]
      [[(1:ℚ), 2, 1/2]] 3 hw (by simp)).2 rfl).1 hmatch
  refine ⟨⟨hw, by simp, rfl, hmatch⟩, ?_⟩
  rw [hmain]
  norm_num

/-- Fixed point rounding to 8 decimal places: the numeric effect of the
%18.8f format np.savetxt applies to every PF and SD value in the protection
factor files. -/
def fix8 (q : ℚ) : ℚ := (round (q * 10 ^ 8) : ℤ) / 10 ^ 8

/-- One data row of the by-residue protection factor file written by Radou.PF
(Methods.py lines 252-260): fmt %7d %18.8f %18.8f below the one-line header
with ResID, protection factor and standard deviation. -/
def writePFRow (rid : ℤ) (pf sd : ℚ) : List ℚ := [(rid : ℚ), fix8 pf, fix8 sd]

/-- One data row of the SUMMARY protection factor file written by
Analyze.print_summaries (Analysis.py lines 283-293): only ResID and PF. -/
def writeSummaryPFRow (rid : ℤ) (pf : ℚ) : List ℚ := [(rid : ℚ), fix8 pf]

/-- Modelled from the spec: no code under src reads a protection factor file
back in, so the reader of one whitespace-delimited numeric row is modelled as
returning its numbers unchanged. -/
def readPFRow (row : List ℚ) : List ℚ := row

/-- Writing one per-residue PF row and reading it back. -/
def roundTripPFRow (rid : ℤ) (pf sd : ℚ) : List ℚ :=
  readPFRow (writePFRow rid pf sd)

/-- C9 counterexample: the PF value 1/3 written with the %18.8f format reads
back as 33333333/100000000, not as the written in-memory value, so the write
then read round trip does not reproduce identical (ResID, PF, SD) rows. -/
theorem pf_file_round_trip_not_exact :
    roundTripPFRow 1 (1/3) 0 ≠ [(1 : ℚ), 1/3, 0] := by
  have hr : (round ((1/3 : ℚ) * 10 ^ 8) : ℤ) = 33333333 := by
    norm_num [round_eq]
  simp only [roundTripPFRow, readPFRow, writePFRow, fix8, hr, List.cons.injEq]
  norm_num

/-- C9 amended: a written per-residue PF row from Radou.PF is one
whitespace-delimited numeric row (ResID, PF, SD) below a single header line,
with PF and SD rounded to 8 decimal places by the %18.8f format; reading it
back reproduces exactly those rounded values, hence exactly the original
values precisely when PF and SD are integer multiples of 10^-8; the SUMMARY
per-residue PF file rows carry only (ResID, PF), with no SD column. -/
theorem pf_file_round_trip_rounded (rid : ℤ) (pf sd : ℚ)
    (hpf : ∃ m : ℤ, pf = (m : ℚ) / 10 ^ 8)
    (hsd : ∃ m : ℤ, sd = (m : ℚ) / 10 ^ 8) :
    (∀ (rid2 : ℤ) (pf2 sd2 : ℚ),
        roundTripPFRow rid2 pf2 sd2 = [(rid2 : ℚ), fix8 pf2, fix8 sd2]) ∧
    roundTripPFRow rid pf sd = [(rid : ℚ), pf, sd] ∧
    (∀ (rid2 : ℤ) (pf2 : ℚ), (writeSummaryPFRow rid2 pf2).length = 2) := by
  obtain ⟨mp, rfl⟩ := hpf
  obtain ⟨ms, rfl⟩ := hsd
  have hten : ((10 : ℚ) ^ 8) ≠ 0 := by norm_num
  have hfix : ∀ m : ℤ, fix8 ((m : ℚ) / 10 ^ 8) = (m : ℚ) / 10 ^ 8 := by
    intro m
    rw [fix8, div_mul_cancel₀ _ hten, round_intCast]
  refine ⟨fun rid2 pf2 sd2 => rfl, ?_, fun rid2 pf2 => rfl⟩
  simp only [roundTripPFRow, readPFRow, writePFRow, hfix]

/-- Witness for the amended C9 at ResID 1, PF 1/4 and SD 0, both exact
multiples of 10^-8. -/
theorem pf_file_round_trip_rounded_witness :
    ((∃ m : ℤ, (1/4 : ℚ) = (m : ℚ) / 10 ^ 8) ∧
      (∃ m : ℤ, (0 : ℚ) = (m : ℚ) / 10 ^ 8)) ∧
    roundTripPFRow 1 (1/4) 0 = [(1 : ℚ), 1/4, 0] := by
  have h1 : ∃ m : ℤ, (1/4 : ℚ) = (m : ℚ) / 10 ^ 8 := ⟨25000000, by norm_num⟩
  have h2 : ∃ m : ℤ, (0 : ℚ) = (m : ℚ) / 10 ^ 8 := ⟨0, by norm_num⟩
  exact ⟨⟨h1, h2⟩, (pf_file_round_trip_rounded 1 (1/4) 0 h1 h2).2.1⟩

/-- A zipWith whose function ignores its second argument and fixes every
element of the first list is the identity on the first list, provided the
second list is long enough. -/
theorem zipWith_eq_left {α β : Type} (f : α → β → α) :
    ∀ (l1 : List α) (l2 : List β), l2.length = l1.length →
      (∀ a ∈ l1, ∀ b, f a b = a) → List.zipWith f l1 l2 = l1 := by
  intro l1
  induction l1 with
  | nil => intro l2 _ _; simp
  | cons a t ih =>
    intro l2 hlen hf
    cases l2 with
    | nil => simp at hlen
    | cons b t2 =>
      simp only [List.zipWith]
      rw [hf a (by simp) b, ih t2 (by simpa using hlen)
        (fun x hx b2 => hf x (by simp [hx]) b2)]

/-- Zipping rows with empty rows by append is the identity. -/
theorem zipWith_append_replicate_nil {α : Type} (l : List (List α)) :
    List.zipWith (· ++ ·) l (List.replicate l.length []) = l := by
  induction l with
  | nil => rfl
  | cons h t ih => simp [List.replicate_succ, ih]

/-- C6: merging a zero-frame chunk (matching rates, empty by-frame columns)
into a cumulative Radou state with at least one frame returns the state
completely unchanged: same frame count, same per-residue PF and SD columns,
same by-frame PFs and same recomputed deuterated fractions. The hypothesis on
sqrtf states the one property of the real square root that the SD column
needs, instantiated only at the values appearing in the state. -/
theorem radou_add_zero_frame_identity (sqrtf expf : ℚ → ℚ) (s o : RadouState)
    (hr : s.rates = o.rates) (h0 : o.nFrames = 0)
    (hlen : o.pfs.length = s.pfs.length)
    (hbf : o.pfByframe = List.replicate s.pfByframe.length [])
    (hF : 0 < s.nFrames)
    (hsq : ∀ p ∈ s.pfs,
        sqrtf (((s.nFrames : ℚ) * p.2) ^ 2) = (s.nFrames : ℚ) * p.2)
    (hres : s.resfracs = dfrac expf s.rates (s.pfs.map Prod.fst) s.times) :
    Radou.add sqrtf expf s (.obj o) = .ok s := by
  have hsn : ((s.nFrames : ℚ)) ≠ 0 := Nat.cast_ne_zero.mpr hF.ne'
  have hP : List.zipWith
      (fun a b => (a / ((s.nFrames + o.nFrames : ℕ) : ℚ),
                   b / ((s.nFrames + o.nFrames : ℕ) : ℚ)))
      (List.zipWith (fun p q =>
        (s.nFrames : ℚ) * p.1 + (o.nFrames : ℚ) * q.1) s.pfs o.pfs)
      (List.zipWith (fun p q =>
        sqrtf ((s.nFrames : ℚ) ^ 2 * p.2 ^ 2 + (o.nFrames : ℚ) ^ 2 * q.2 ^ 2))
        s.pfs o.pfs) = s.pfs := by
    rw [zipWith_zipWith_same]
    refine zipWith_eq_left _ s.pfs o.pfs hlen ?_
    intro p hp q
    have h1 : (s.nFrames : ℚ) * p.1 + (o.nFrames : ℚ) * q.1
        = (s.nFrames : ℚ) * p.1 := by
      rw [h0]
      push_cast
      ring
    have h2 : (s.nFrames : ℚ) ^ 2 * p.2 ^ 2 + (o.nFrames : ℚ) ^ 2 * q.2 ^ 2
        = ((s.nFrames : ℚ) * p.2) ^ 2 := by
      rw [h0]
      push_cast
      ring
    have h3 : ((s.nFrames + o.nFrames : ℕ) : ℚ) = (s.nFrames : ℚ) := by
      rw [h0, Nat.add_zero]
    rw [h1, h2, h3, hsq p hp, mul_div_cancel_left₀ _ hsn,
      mul_div_cancel_left₀ _ hsn]
  simp only [Radou.add, if_pos hr]
  refine congrArg Except.ok ?_
  have h4 : s.nFrames + o.nFrames = s.nFrames := by rw [h0, Nat.add_zero]
  obtain ⟨sr, sti, sn, sp, sb, sf⟩ := s
  simp only at hP h4 hbf hres hsq ⊢
  rw [hP, h4, hbf, zipWith_append_replicate_nil, ← hres]

/-- A zero-frame chunk: no frames, empty by-frame columns, same rates. -/
def radouZeroChunk : RadouState :=
  { rates := [1], times := [1], nFrames := 0, pfs := [(7, 3)],
    pfByframe := [[]], resfracs := [[0]] }

/-- Witness for C6: merging the concrete zero-frame chunk into the 10-frame
scenario state returns the state unchanged. -/
theorem radou_add_zero_frame_identity_witness :
    (radouChunkA.rates = radouZeroChunk.rates ∧
      radouZeroChunk.nFrames = 0 ∧
      radouZeroChunk.pfs.length = radouChunkA.pfs.length ∧
      radouZeroChunk.pfByframe = List.replicate radouChunkA.pfByframe.length [] ∧
      0 < radouChunkA.nFrames ∧
      (∀ p ∈ radouChunkA.pfs,
        id (((radouChunkA.nFrames : ℚ) * p.2) ^ 2) = (radouChunkA.nFrames : ℚ) * p.2) ∧
      radouChunkA.resfracs =
        dfrac id radouChunkA.rates (radouChunkA.pfs.map Prod.fst) radouChunkA.times) ∧
    Radou.add id id radouChunkA (.obj radouZeroChunk) = .ok radouChunkA := by
  have hsq : ∀ p ∈ radouChunkA.pfs,
      id (((radouChunkA.nFrames : ℚ) * p.2) ^ 2) = (radouChunkA.nFrames : ℚ) * p.2 := by
    intro p hp
    simp only [radouChunkA, List.mem_singleton] at hp
    subst hp
    norm_num
  refine ⟨⟨rfl, rfl, rfl, rfl, by decide, hsq, rfl⟩, ?_⟩
  exact radou_add_zero_frame_identity id id radouChunkA radouZeroChunk rfl rfl rfl
    rfl (by decide) hsq rfl
